import Mathlib

/-!
Verification of the windowed count-stabilization engine of the
DeepStream-Yolo repository (files `deepstream_count.py` and
`deepstream_dual.py`), via a shallow embedding of its data model and
algorithms.

The engine keeps, per video stream, a bounded FIFO window of raw
per-frame detection counts (a Python `deque(maxlen=...)`) and derives a
"stabilized" count from the window by one of two estimators:

* a mode estimator (`Counter(buffer).most_common(1)[0][0]`,
  `deepstream_count.py` lines 62-66), and
* a 95th-percentile estimator (`get_stabilized_count`,
  `deepstream_dual.py` lines 83-97).

Python integers are embedded as `Int` (or `Nat` where the value is a
non-negative count); all definitions are executable.
-/

/- ### Configuration constants (`deepstream_count.py` lines 21-25) -/

/-- Assumed frame rate of `deepstream_count.py` (line 21). -/
def FPS : ℕ := 30

/-- Window length in seconds of `deepstream_count.py` (line 22). -/
def WINDOW_SECONDS : ℕ := 10

/-- Window capacity `BUFFER_SIZE = FPS * WINDOW_SECONDS`
(`deepstream_count.py` line 23). -/
def BUFFER_SIZE : ℕ := FPS * WINDOW_SECONDS

/-- Initial value of the global `current_stabilized_count`
(`deepstream_count.py` line 25). -/
def current_stabilized_count_init : ℕ := 0

/- ### Configuration constants (`deepstream_dual.py` lines 68-71) -/

/-- Frame rate of `deepstream_dual.py` (line 68). -/
def FPS_DUAL : ℕ := 30

/-- Window length in seconds of `deepstream_dual.py` (line 70). -/
def WINDOW_SECONDS_DUAL : ℕ := 30

/-- Window capacity of `deepstream_dual.py` (line 71). -/
def BUFFER_SIZE_DUAL : ℕ := FPS_DUAL * WINDOW_SECONDS_DUAL

/- ### Sliding window: Python `deque(maxlen = cap)` -/

/-- One `append` on a Python `deque(maxlen = cap)`: the new value goes to
the right; if the deque is full the oldest (leftmost) value is evicted,
so the result is the last `cap` elements of `q ++ [v]`.  Embeds
`count_buffer.append(...)` (`deepstream_count.py` line 60) and
`top_buffer.append(...)` (`deepstream_dual.py` line 117). -/
def dequeAppend {α : Type} (cap : ℕ) (q : List α) (v : α) : List α :=
  (q ++ [v]).drop ((q ++ [v]).length - cap)

/-- A sequence of `deque` appends, oldest first. -/
def dequeAppendAll {α : Type} (cap : ℕ) (q : List α) (vs : List α) : List α :=
  vs.foldl (dequeAppend cap) q

/- ### Mode estimator: `Counter(buffer).most_common(1)[0][0]` -/

/-- The keys of `Counter(l)` in insertion order: each distinct value of
`l`, ordered by its first occurrence (Python dicts preserve the order in
which keys were first inserted). -/
def firstOccs {α : Type} [DecidableEq α] : List α → List α
  | [] => []
  | a :: t => a :: (firstOccs t).filter (fun v => v ≠ a)

/-- The fold step of `most_common(1)`: keep the key with the larger
count, the earlier key winning ties (Python's `heapq.nlargest` /
stable sort keep the first-encountered element among equals). -/
def mcStep {α : Type} [DecidableEq α] (l : List α) (best : Option α) (v : α) :
    Option α :=
  match best with
  | none => some v
  | some b => if l.count b < l.count v then some v else some b

/-- Embeds `Counter(l).most_common(1)[0][0]` (`deepstream_count.py`
lines 64-66): the value of `l` with the maximal multiplicity, the key
first inserted into the `Counter` (earliest first occurrence in `l`)
winning ties; `none` when `l` is empty (Python would raise
`IndexError` on `[0]`, which the caller guards against). -/
def most_common1 {α : Type} [DecidableEq α] (l : List α) : Option α :=
  (firstOccs l).foldl (mcStep l) none

/-- The per-frame stabilized-count update of `deepstream_count.py`
(lines 62-66): when the window is non-empty the global
`current_stabilized_count` becomes the mode of the window, otherwise it
keeps its previous value. -/
def osd_update_stabilized (window : List ℕ) (prev : ℕ) : ℕ :=
  if 0 < window.length then (most_common1 window).getD prev else prev

/- ### Percentile estimator: `get_stabilized_count` -/

/-- The index computed by `get_stabilized_count` (`deepstream_dual.py`
lines 92-95): `index = int(len * p)` (for `0 < p` the product is
non-negative, so Python's truncation toward zero is the floor), then
`if index >= len: index = len - 1`.

The source multiplies by the binary double `0.95`; for every window
length `n` up to far beyond the configured capacities (300 and 900),
`int(n * 0.95)` equals the exact `⌊n * 19/20⌋` (the float product of
`n` and the nearest double to `0.95` rounds to the exact rational
product's floor), so the exact rational embedding is faithful. -/
def percentile_index (p : ℚ) (n : ℕ) : ℕ :=
  let index : ℕ := (⌊(n : ℚ) * p⌋).toNat
  if n ≤ index then n - 1 else index

/-- Embeds `get_stabilized_count` (`deepstream_dual.py` lines 83-97)
with the percentile target `p` as a parameter: return `0` for an empty
buffer; otherwise sort ascending (Python's `sorted` returns a new
list; on integers the ascending sort is unique, so `insertionSort`
is an equivalent executable embedding) and index at
`percentile_index`.  List indexing is fallible in Python
(`IndexError`), hence the `Option` result via `getElem?`. -/
def get_stabilized_count_p {α : Type} [LinearOrder α] [Zero α]
    (p : ℚ) (buffer : List α) : Option α :=
  if buffer.length = 0 then some 0
  else
    let sorted_buffer := buffer.insertionSort (· ≤ ·)
    sorted_buffer[percentile_index p sorted_buffer.length]?

/-- `get_stabilized_count` as in the source, at the hard-coded
95th-percentile target (`deepstream_dual.py` line 92). -/
def get_stabilized_count {α : Type} [LinearOrder α] [Zero α]
    (buffer : List α) : Option α :=
  get_stabilized_count_p (19 / 20) buffer

/- ### The dual-view ingestion step (`deepstream_dual.py` lines 115-121) -/

/-- The per-stream statistics dictionary
`{"current": ..., "stabilized": ...}` of `deepstream_dual.py`
(lines 77-78). -/
structure DualStats where
  current : ℤ
  stabilized : ℤ
deriving DecidableEq, Repr

/-- Initial value of `top_stats` / `side_stats`
(`deepstream_dual.py` lines 77-78). -/
def dual_stats_init : DualStats := ⟨0, 0⟩

/-- One iteration of the ingestion probe body under the lock
(`deepstream_dual.py` lines 115-121): append `num_rects` to the window,
record it as `current`, recompute `stabilized` from the new window.
`num_rects` is embedded as `Int`: the probe applies no validation
whatsoever to the value it receives, so a negative value flows through
unchanged.  (`get_stabilized_count` always returns a value on the
just-appended, hence non-empty, window; `getD 0` only names a default.) -/
def top_infer_update (buf : List ℤ) (num_rects : ℤ) : List ℤ × DualStats :=
  let buf2 := dequeAppend BUFFER_SIZE_DUAL buf num_rects
  (buf2, { current := num_rects, stabilized := (get_stabilized_count buf2).getD 0 })

/- ### State-passing embedding of the estimator calls (purity) -/

/-- Python's built-in `sorted(buffer)` call as used on
`deepstream_dual.py` line 87, with the caller's list threaded through
explicitly: `sorted` allocates and returns a new list and leaves its
argument untouched (unlike in-place `buffer.sort()`), so the second
component — the caller's buffer after the call — is the unchanged
input. -/
def sorted_call {α : Type} [LinearOrder α] (buffer : List α) : List α × List α :=
  (buffer.insertionSort (· ≤ ·), buffer)

/-- `Counter(window)` as used on `deepstream_count.py` line 64, with the
caller's list threaded through: `Counter` only iterates over its
argument, building the tally `(key, multiplicity)` in first-insertion
order, and leaves the argument untouched. -/
def counter_call {α : Type} [DecidableEq α] (window : List α) :
    List (α × ℕ) × List α :=
  ((firstOccs window).map (fun v => (v, window.count v)), window)

/-- `get_stabilized_count` with the caller's buffer threaded through the
`sorted` call (state-passing form of `deepstream_dual.py` lines 83-97). -/
def get_stabilized_count_mut (buffer : List ℕ) : Option ℕ × List ℕ :=
  if buffer.length = 0 then (some 0, buffer)
  else
    let s := sorted_call buffer
    (s.1[percentile_index (19 / 20) s.1.length]?, s.2)

/-- The mode update of `deepstream_count.py` lines 62-66 with the
caller's window threaded through the `Counter` call. -/
def osd_update_stabilized_mut (window : List ℕ) (prev : ℕ) : ℕ × List ℕ :=
  if 0 < window.length then
    let c := counter_call window
    ((most_common1 window).getD prev, c.2)
  else (prev, window)

/- ### Spec-side definitions used only for comparison -/

/-- Modelled from the spec's words, for comparison with the code's
tie-break (`most_common1`): "first value to reach the maximum frequency
when scanning the window in insertion order" — the element at the first
position `i` whose running multiplicity within `l.take (i+1)` reaches
the window's maximal multiplicity. -/
def first_to_reach_max (l : List ℕ) : Option ℕ :=
  ((List.range l.length).find? (fun i =>
    (l.take (i + 1)).count (l.getD i 0) = (l.map (fun v => l.count v)).foldr max 0)).map
    (fun i => l.getD i 0)

/- ### Stats Registry (spec §4.3) -/

/-- The `Snapshot{current, stabilized, frame_count}` triple of spec
§4.3. -/
structure Snapshot where
  current : ℕ
  stabilized : ℕ
  frame_count : ℕ
deriving DecidableEq, Repr

/-- Per-stream state `StreamStatistic` of spec §3. -/
structure StreamStatistic where
  window : List ℕ
  current : ℕ
  stabilized : ℕ
  frame_count : ℕ
deriving DecidableEq, Repr

/-- Modelled from the spec: the `StatsRegistry` of §4.3 — the source
holds the per-stream state as fixed process globals (`top_stats`,
`side_stats`, `deepstream_dual.py` lines 74-78) and has no keyed map
from stream names or `frame_count` field, so the registry's lookup
behaviour is taken from the spec's words.  A registry maps each stream
name to its statistic, `none` for a never-updated stream. -/
def Registry : Type := String → Option StreamStatistic

/-- Modelled from the spec: the registry is "initialized empty at
pipeline start" (§3). -/
def Registry.empty : Registry := fun _ => none

/-- Modelled from the spec: `update(stream_name, raw_count)` (§4.3) —
look up the statistic (creating the zero state if absent), append to
its window, set `current`, increment `frame_count`, recompute
`stabilized` with the configured estimator. -/
def Registry.update (est : List ℕ → ℕ) (cap : ℕ) (r : Registry)
    (name : String) (raw : ℕ) : Registry :=
  let st := (r name).getD ⟨[], 0, 0, 0⟩
  let w := dequeAppend cap st.window raw
  let st2 : StreamStatistic := ⟨w, raw, est w, st.frame_count + 1⟩
  fun q => if q = name then some st2 else r q

/-- Modelled from the spec: `snapshot(stream_name)` (§4.3) — a copy of
the three public fields, the zero state for a never-updated stream. -/
def Registry.snapshot (r : Registry) (name : String) : Snapshot :=
  match r name with
  | none => ⟨0, 0, 0⟩
  | some st => ⟨st.current, st.stabilized, st.frame_count⟩

/-- A sequence of registry updates, oldest first. -/
def Registry.updateAll (est : List ℕ → ℕ) (cap : ℕ) (r : Registry)
    (us : List (String × ℕ)) : Registry :=
  us.foldl (fun acc u => Registry.update est cap acc u.1 u.2) r

/-- Stream names used in concrete instances below. -/
def topStreamName : String := "top"

/-- A stream name never updated in the concrete instances below. -/
def sideStreamName : String := "side"

/-- The end-to-end scenario of spec §8: capacity `BUFFER_SIZE = 300`
(fps 30, 10-second window), 300 appends of raw count `3` followed by
`k` appends of raw count `5`, evaluated with the percentile estimator
of `deepstream_dual.py`. -/
def scenario_window (k : ℕ) : List ℕ :=
  dequeAppendAll BUFFER_SIZE [] (List.replicate 300 3 ++ List.replicate k 5)

/-!
## Helper lemmas
-/

/-- A run of `deque` appends starting from the empty deque keeps exactly
the last `cap` values appended, in arrival order. -/
theorem dequeAppendAll_eq_drop {α : Type} (cap : ℕ) (vs : List α) :
    dequeAppendAll cap [] vs = vs.drop (vs.length - cap) := by
  induction vs using List.reverseRecOn with
  | nil => simp [dequeAppendAll]
  | append_singleton vs v ih =>
    have hstep : dequeAppendAll cap [] (vs ++ [v])
        = dequeAppend cap (dequeAppendAll cap [] vs) v := by
      simp [dequeAppendAll]
    rw [hstep, ih, dequeAppend]
    have hd : vs.length - cap ≤ vs.length := Nat.sub_le _ _
    rw [← List.drop_append_of_le_length hd, List.drop_drop]
    congr 1
    simp only [List.length_drop, List.length_append, List.length_singleton]
    omega

/-- The percentile index is always in bounds for a non-empty window. -/
theorem percentile_index_lt (p : ℚ) (n : ℕ) (h : 0 < n) :
    percentile_index p n < n := by
  simp only [percentile_index]
  split
  · omega
  · omega

/-- For a non-empty window the code's clamp (`if index >= len: index =
len - 1`) agrees with `min index (len - 1)`. -/
theorem percentile_index_eq_min (p : ℚ) (n : ℕ) (h : 0 < n) :
    percentile_index p n = min (⌊(n : ℚ) * p⌋).toNat (n - 1) := by
  simp only [percentile_index]
  split
  · omega
  · omega

/-- For `0 < p ≤ 1` and a window of length 1 the percentile index is 0. -/
theorem percentile_index_one (p : ℚ) (hp0 : 0 < p) (hp1 : p ≤ 1) :
    percentile_index p 1 = 0 := by
  have h0 : (0 : ℤ) ≤ ⌊(1 : ℚ) * p⌋ := Int.floor_nonneg.2 (by linarith)
  have h1 : ⌊(1 : ℚ) * p⌋ ≤ 1 := by
    calc ⌊(1 : ℚ) * p⌋ ≤ ⌊(1 : ℚ)⌋ := Int.floor_le_floor (by linarith)
    _ = 1 := Int.floor_one
  simp only [percentile_index]
  split
  · rfl
  · omega

/-- The ascending insertion sort of a buffer equals any sorted
permutation of it. -/
theorem insertionSort_eq_of_perm_sorted {α : Type} [LinearOrder α]
    (buffer s : List α) (hperm : List.Perm buffer s)
    (hsort : s.Sorted (· ≤ ·)) : buffer.insertionSort (· ≤ ·) = s :=
  List.eq_of_perm_of_sorted ((List.perm_insertionSort _ buffer).trans hperm)
    (List.sorted_insertionSort _ buffer) hsort

/-- `get_stabilized_count_p` on a non-empty buffer: the sorted copy,
indexed at the percentile index. -/
theorem get_stabilized_count_p_ne_nil {α : Type} [LinearOrder α] [Zero α]
    (p : ℚ) (buffer : List α) (hne : buffer ≠ []) :
    get_stabilized_count_p p buffer
      = (buffer.insertionSort (· ≤ ·))[percentile_index p buffer.length]? := by
  have hlen : buffer.length ≠ 0 := by
    simpa [List.length_eq_zero] using hne
  simp only [get_stabilized_count_p, if_neg hlen, List.length_insertionSort]

/-!
## C2 — window bound and sliding-window contents
-/

/-- C2: for every stream window with capacity `fps * window_seconds`,
after any sequence of appends the window's length is
`min (number of appends) capacity` — in particular it never exceeds the
capacity — and the window holds exactly the last `capacity` raw values
appended, in arrival order (`vs.drop (vs.length - capacity)` is the
suffix of the appended sequence, so the oldest values are the ones
evicted). -/
theorem window_bound_sliding (fps ws : ℕ) (vs : List ℕ) :
    (dequeAppendAll (fps * ws) [] vs).length = min vs.length (fps * ws) ∧
    dequeAppendAll (fps * ws) [] vs = vs.drop (vs.length - fps * ws) := by
  refine ⟨?_, dequeAppendAll_eq_drop _ _⟩
  rw [dequeAppendAll_eq_drop]
  simp only [List.length_drop]
  omega

/-!
## C5 — empty window returns zero for both strategies
-/

/-- C5: both estimator strategies give 0 on the empty window, as a
defined value and not an error: the percentile estimator returns
`some 0` by its explicit empty-buffer guard, and the mode path of
`deepstream_count.py` guards the empty window so the stabilized value
stays at its initial value 0. -/
theorem empty_window_zero :
    get_stabilized_count ([] : List ℕ) = some 0 ∧
    osd_update_stabilized [] current_stabilized_count_init = 0 :=
  ⟨rfl, rfl⟩

/-!
## C1 — percentile estimator: sorted indexing with clamp
-/

/-- C1: on any non-empty window, the percentile estimator at target
`p ∈ (0, 1]` returns the element at position `⌊length * p⌋` of the
ascending-sorted window, with the index clamped to `length - 1` (stated
against any sorted permutation `s` of the buffer, which is unique); in
particular on the window `[4]` of length 1 it returns `4` for every
such `p`. -/
theorem percentile_returns_clamped_index (p : ℚ) (hp0 : 0 < p) (hp1 : p ≤ 1)
    (buffer s : List ℕ) (hne : buffer ≠ []) (hperm : List.Perm buffer s)
    (hsort : s.Sorted (· ≤ ·)) :
    get_stabilized_count_p p buffer
      = some (s.getD (min (⌊(buffer.length : ℚ) * p⌋).toNat (buffer.length - 1)) 0) ∧
    get_stabilized_count_p p [4] = some 4 := by
  constructor
  · have hlen : 0 < buffer.length := List.length_pos.2 hne
    have hslen : s.length = buffer.length := hperm.length_eq.symm
    have hidx : percentile_index p buffer.length
        = min (⌊(buffer.length : ℚ) * p⌋).toNat (buffer.length - 1) :=
      percentile_index_eq_min p buffer.length hlen
    have hin : min (⌊(buffer.length : ℚ) * p⌋).toNat (buffer.length - 1) < s.length := by
      rw [hslen]; omega
    rw [get_stabilized_count_p_ne_nil p buffer hne,
      insertionSort_eq_of_perm_sorted buffer s hperm hsort, hidx,
      List.getElem?_eq_getElem hin, List.getD_eq_getElem?_getD,
      List.getElem?_eq_getElem hin]
    rfl
  · have h4 : ([4] : List ℕ) ≠ [] := by simp
    rw [get_stabilized_count_p_ne_nil p [4] h4]
    simp [List.insertionSort, List.orderedInsert,
      percentile_index_one p hp0 hp1]

/-- Witness for C1 at `p = 1/2`, buffer `[7, 2]`, sorted copy `[2, 7]`:
the clamped index is `min ⌊2 * (1/2)⌋ 1 = 1` and the estimator returns
`7`. -/
theorem percentile_returns_clamped_index_witness :
    get_stabilized_count_p (1 / 2) ([7, 2] : List ℕ)
      = some ((([2, 7] : List ℕ)).getD
          (min (⌊((([7, 2] : List ℕ)).length : ℚ) * (1 / 2)⌋).toNat
            ((([7, 2] : List ℕ)).length - 1)) 0) ∧
    get_stabilized_count_p (1 / 2) [4] = some 4 :=
  percentile_returns_clamped_index (1 / 2) (by norm_num) (by norm_num)
    [7, 2] [2, 7] (by decide) (by decide) (by decide)

/-!
## C9 — percentile estimator is total, indexing in bounds
-/

/-- C9: on any non-empty window the clamped index is strictly below the
window length, so the lookup into the sorted window cannot fail: the
estimator returns `some v` for a value `v` that is an element of the
window, hence lies between every lower bound and upper bound of the
window (in particular between its minimum and maximum). -/
theorem percentile_total_in_bounds (buffer : List ℕ) (hne : buffer ≠ []) :
    percentile_index (19 / 20) buffer.length < buffer.length ∧
    ∃ v, get_stabilized_count buffer = some v ∧ v ∈ buffer ∧
      (∀ u, (∀ w ∈ buffer, u ≤ w) → u ≤ v) ∧
      (∀ u, (∀ w ∈ buffer, w ≤ u) → v ≤ u) := by
  have hlen : 0 < buffer.length := List.length_pos.2 hne
  have hlt : percentile_index (19 / 20) buffer.length < buffer.length :=
    percentile_index_lt _ _ hlen
  refine ⟨hlt, ?_⟩
  have hslen : (buffer.insertionSort (· ≤ ·)).length = buffer.length :=
    List.length_insertionSort _ _
  have hin : percentile_index (19 / 20) buffer.length
      < (buffer.insertionSort (· ≤ ·)).length := by rw [hslen]; exact hlt
  refine ⟨(buffer.insertionSort (· ≤ ·))[percentile_index (19 / 20) buffer.length], ?_, ?_, ?_, ?_⟩
  · rw [get_stabilized_count, get_stabilized_count_p_ne_nil _ buffer hne,
      List.getElem?_eq_getElem hin]
  · exact (List.mem_insertionSort _).1 (List.getElem_mem hin)
  · intro u hu
    exact hu _ ((List.mem_insertionSort _).1 (List.getElem_mem hin))
  · intro u hu
    exact hu _ ((List.mem_insertionSort _).1 (List.getElem_mem hin))

/-- Witness for C9 on the window `[5, 9]`. -/
theorem percentile_total_in_bounds_witness :
    percentile_index (19 / 20) (([5, 9] : List ℕ)).length < (([5, 9] : List ℕ)).length ∧
    ∃ v, get_stabilized_count ([5, 9] : List ℕ) = some v ∧ v ∈ ([5, 9] : List ℕ) ∧
      (∀ u, (∀ w ∈ ([5, 9] : List ℕ), u ≤ w) → u ≤ v) ∧
      (∀ u, (∀ w ∈ ([5, 9] : List ℕ), w ≤ u) → v ≤ u) :=
  percentile_total_in_bounds [5, 9] (by decide)

/-!
## C10 — percentile estimator depends only on the multiset of values
-/

/-- C10: the percentile estimator returns equal results on any two
windows that are permutations of each other — unlike the mode strategy,
whose insertion-order tie-break distinguishes the permuted windows
`[2, 3]` and `[3, 2]`. -/
theorem percentile_permutation_invariant (b₁ b₂ : List ℕ)
    (h : List.Perm b₁ b₂) :
    get_stabilized_count b₁ = get_stabilized_count b₂ ∧
    most_common1 [2, 3] = some 2 ∧ most_common1 [3, 2] = some 3 := by
  refine ⟨?_, by decide, by decide⟩
  have hsort : b₁.insertionSort (· ≤ ·) = b₂.insertionSort (· ≤ ·) :=
    insertionSort_eq_of_perm_sorted b₁ _
      (h.trans (List.perm_insertionSort _ b₂).symm)
      (List.sorted_insertionSort _ b₂)
  simp only [get_stabilized_count, get_stabilized_count_p, h.length_eq, hsort]

/-- Witness for C10 on the permuted windows `[1, 2]` and `[2, 1]`. -/
theorem percentile_permutation_invariant_witness :
    get_stabilized_count ([1, 2] : List ℕ) = get_stabilized_count ([2, 1] : List ℕ) ∧
    most_common1 [2, 3] = some 2 ∧ most_common1 [3, 2] = some 3 :=
  percentile_permutation_invariant [1, 2] [2, 1] (by decide)

/-!
## Mode estimator: structure of `most_common1`
-/

/-- The `Counter` keys are exactly the values of the window. -/
theorem mem_firstOccs {α : Type} [DecidableEq α] (l : List α) (v : α) :
    v ∈ firstOccs l ↔ v ∈ l := by
  induction l with
  | nil => simp [firstOccs]
  | cons a t ih =>
    by_cases hva : v = a
    · simp [firstOccs, hva]
    · simp [firstOccs, List.mem_filter, hva, ih]

/-- A non-empty window has a non-empty key list. -/
theorem firstOccs_ne_nil {α : Type} [DecidableEq α] (l : List α)
    (h : l ≠ []) : firstOccs l ≠ [] := by
  cases l with
  | nil => exact absurd rfl h
  | cons a t => simp [firstOccs]

/-- Keys appear in `firstOccs l` in the order of their first occurrence
in `l`: if `[c, u]` is a sublist of the key list then the first
occurrence of `c` in `l` is strictly before that of `u`. -/
theorem indexOf_lt_of_sublist_firstOccs {α : Type} [DecidableEq α] :
    ∀ (l : List α) (c u : α), List.Sublist [c, u] (firstOccs l) → c ≠ u →
      List.indexOf c l < List.indexOf u l := by
  intro l
  induction l with
  | nil =>
    intro c u h hne
    rw [firstOccs] at h
    exact absurd (h.mem (List.mem_cons_self c [u])) (List.not_mem_nil c)
  | cons a t ih =>
    intro c u h hne
    rw [firstOccs] at h
    cases h with
    | cons _ h2 =>
      have hc : c ∈ (firstOccs t).filter (fun v => v ≠ a) :=
        h2.mem (List.mem_cons_self c [u])
      have hu : u ∈ (firstOccs t).filter (fun v => v ≠ a) :=
        h2.mem (List.mem_cons_of_mem c (List.mem_cons_self u []))
      have hca : c ≠ a := by
        have := (List.mem_filter.1 hc).2
        simpa using this
      have hua : u ≠ a := by
        have := (List.mem_filter.1 hu).2
        simpa using this
      have hsub : List.Sublist [c, u] (firstOccs t) :=
        h2.trans (List.filter_sublist _)
      have hlt := ih c u hsub hne
      rw [List.indexOf_cons_ne t (Ne.symm hca), List.indexOf_cons_ne t (Ne.symm hua)]
      omega
    | cons₂ _ h2 =>
      rw [List.indexOf_cons_self, List.indexOf_cons_ne t hne]
      omega

/-- The fold of `mcStep` starting from a candidate `b`: the result is
either `b` itself dominating every key, or a key of the list that
strictly dominates `b` and every key before it, and dominates-or-ties
every key after it. -/
theorem mcStep_foldl_spec {α : Type} [DecidableEq α] (l : List α) :
    ∀ (ks : List α) (b : α), ∃ c, ks.foldl (mcStep l) (some b) = some c ∧
      ((c = b ∧ ∀ u ∈ ks, l.count u ≤ l.count c) ∨
       (∃ K₁ K₂, ks = K₁ ++ c :: K₂ ∧ l.count b < l.count c ∧
          (∀ u ∈ K₁, l.count u < l.count c) ∧
          (∀ u ∈ K₂, l.count u ≤ l.count c))) := by
  intro ks
  induction ks with
  | nil =>
    intro b
    exact ⟨b, rfl, Or.inl ⟨rfl, by simp⟩⟩
  | cons v ks ih =>
    intro b
    rw [List.foldl_cons]
    by_cases hbv : l.count b < l.count v
    · rw [show mcStep l (some b) v = some v from by simp [mcStep, hbv]]
      obtain ⟨c, hc, hcase⟩ := ih v
      refine ⟨c, hc, Or.inr ?_⟩
      rcases hcase with ⟨rfl, hall⟩ | ⟨K₁, K₂, hks, hvc, h₁, h₂⟩
      · exact ⟨[], ks, by simp, hbv, by simp, hall⟩
      · refine ⟨v :: K₁, K₂, by rw [hks, List.cons_append], ?_, ?_, h₂⟩
        · omega
        · intro u hu
          rcases List.mem_cons.1 hu with rfl | hu
          · exact hvc
          · exact h₁ u hu
    · rw [show mcStep l (some b) v = some b from by simp [mcStep, hbv]]
      obtain ⟨c, hc, hcase⟩ := ih b
      refine ⟨c, hc, ?_⟩
      rcases hcase with ⟨rfl, hall⟩ | ⟨K₁, K₂, hks, hbc, h₁, h₂⟩
      · refine Or.inl ⟨rfl, ?_⟩
        intro u hu
        rcases List.mem_cons.1 hu with rfl | hu
        · omega
        · exact hall u hu
      · refine Or.inr ⟨v :: K₁, K₂, by rw [hks, List.cons_append], hbc, ?_, h₂⟩
        intro u hu
        rcases List.mem_cons.1 hu with rfl | hu
        · omega
        · exact h₁ u hu

/-- `most_common1` on a non-empty window returns a maximally frequent
value, and among the maximally frequent values the one whose first
occurrence (in insertion order) is earliest. -/
theorem most_common1_spec {α : Type} [DecidableEq α] (l : List α)
    (h : l ≠ []) :
    ∃ c, most_common1 l = some c ∧ c ∈ l ∧
      (∀ u ∈ l, l.count u ≤ l.count c) ∧
      (∀ u ∈ l, l.count u = l.count c → l.indexOf c ≤ l.indexOf u) := by
  obtain ⟨k, ks, hF⟩ : ∃ k ks, firstOccs l = k :: ks := by
    cases hF : firstOccs l with
    | nil => exact absurd hF (firstOccs_ne_nil l h)
    | cons k ks => exact ⟨k, ks, rfl⟩
  have hfold : most_common1 l = ks.foldl (mcStep l) (some k) := by
    rw [most_common1, hF, List.foldl_cons]
    rfl
  obtain ⟨c, hc, hcase⟩ := mcStep_foldl_spec l ks k
  have hdecomp : ∃ F₁ F₂, firstOccs l = F₁ ++ c :: F₂ ∧
      (∀ u ∈ F₁, l.count u < l.count c) ∧
      (∀ u ∈ F₂, l.count u ≤ l.count c) := by
    rcases hcase with ⟨rfl, hall⟩ | ⟨K₁, K₂, hks, hkc, h₁, h₂⟩
    · exact ⟨[], ks, by rw [hF, List.nil_append], by simp, hall⟩
    · refine ⟨k :: K₁, K₂, by rw [hF, hks, List.cons_append], ?_, h₂⟩
      intro u hu
      rcases List.mem_cons.1 hu with rfl | hu
      · exact hkc
      · exact h₁ u hu
  obtain ⟨F₁, F₂, hFd, h₁, h₂⟩ := hdecomp
  have hcF : c ∈ firstOccs l := by
    rw [hFd]
    exact List.mem_append_right _ (List.mem_cons_self _ _)
  have hcl : c ∈ l := (mem_firstOccs l c).1 hcF
  refine ⟨c, hfold ▸ hc, hcl, ?_, ?_⟩
  · intro u hu
    have huF : u ∈ firstOccs l := (mem_firstOccs l u).2 hu
    rw [hFd] at huF
    rcases List.mem_append.1 huF with huF | huF
    · exact le_of_lt (h₁ u huF)
    · rcases List.mem_cons.1 huF with rfl | huF
      · exact le_refl _
      · exact h₂ u huF
  · intro u hu hcount
    by_cases huc : u = c
    · rw [huc]
    · have huF : u ∈ firstOccs l := (mem_firstOccs l u).2 hu
      rw [hFd] at huF
      have huF₂ : u ∈ F₂ := by
        rcases List.mem_append.1 huF with huF | huF
        · exact absurd hcount (by have := h₁ u huF; omega)
        · rcases List.mem_cons.1 huF with rfl | huF
          · exact absurd rfl huc
          · exact huF
      have hsub : List.Sublist [c, u] (firstOccs l) := by
        rw [hFd]
        exact (List.Sublist.cons₂ c (List.singleton_sublist.2 huF₂)).trans
          (List.sublist_append_right F₁ _)
      exact le_of_lt
        (indexOf_lt_of_sublist_firstOccs l c u hsub (fun e => huc e.symm))

/-!
## C3 — mode tie-break (corrected)
-/

/-- C3 counterexample: on the window `[3, 2, 2, 3]` both values have
frequency 2; the value that first *reaches* frequency 2 when scanning
in insertion order is `2` (at the third position), but the code's
`most_common(1)` returns `3`, the value whose *first occurrence* is
earliest — so the claim's tie-break rule does not describe the code. -/
theorem mode_tiebreak_counterexample :
    most_common1 [3, 2, 2, 3] = some 3 ∧
    first_to_reach_max [3, 2, 2, 3] = some 2 ∧ (3 : ℕ) ≠ 2 := by
  refine ⟨by decide, by decide, by decide⟩

/-- C3 (amended): the mode estimator on a non-empty window returns the
most frequent value; on a frequency tie it returns the value whose
first occurrence comes earliest in insertion order (the key first
inserted into the tally), deterministically; in particular, for the
window `[2, 2, 3, 3]` it returns `2`. -/
theorem mode_first_occurrence_tiebreak (l : List ℕ) (h : l ≠ []) :
    (∃ c, most_common1 l = some c ∧ c ∈ l ∧
      (∀ u ∈ l, l.count u ≤ l.count c) ∧
      (∀ u ∈ l, l.count u = l.count c → l.indexOf c ≤ l.indexOf u)) ∧
    most_common1 [2, 2, 3, 3] = some 2 :=
  ⟨most_common1_spec l h, by decide⟩

/-- Witness for C3 (amended) on the tied window `[2, 2, 3, 3]`. -/
theorem mode_first_occurrence_tiebreak_witness :
    (∃ c, most_common1 [2, 2, 3, 3] = some c ∧ c ∈ ([2, 2, 3, 3] : List ℕ) ∧
      (∀ u ∈ ([2, 2, 3, 3] : List ℕ),
        ([2, 2, 3, 3] : List ℕ).count u ≤ ([2, 2, 3, 3] : List ℕ).count c) ∧
      (∀ u ∈ ([2, 2, 3, 3] : List ℕ),
        ([2, 2, 3, 3] : List ℕ).count u = ([2, 2, 3, 3] : List ℕ).count c →
        ([2, 2, 3, 3] : List ℕ).indexOf c ≤ ([2, 2, 3, 3] : List ℕ).indexOf u)) ∧
    most_common1 [2, 2, 3, 3] = some 2 :=
  mode_first_occurrence_tiebreak [2, 2, 3, 3] (by decide)

/-!
## C4 — end-to-end percentile scenario (corrected)
-/

/-- Contents of the scenario window after the `k` fives: the last 300
of the appended values, i.e. `300 - k` threes followed by
`min k 300` fives. -/
theorem scenario_window_eq (k : ℕ) :
    scenario_window k
      = List.replicate (300 - k) 3 ++ List.replicate (min k 300) 5 := by
  rw [scenario_window, dequeAppendAll_eq_drop]
  have hcap : BUFFER_SIZE = 300 := rfl
  rw [hcap]
  have hlen : (List.replicate 300 (3 : ℕ) ++ List.replicate k 5).length - 300 = k := by
    rw [List.length_append, List.length_replicate, List.length_replicate]
    omega
  rw [hlen]
  by_cases hk : k ≤ 300
  · rw [List.drop_append_of_le_length
        (show k ≤ (List.replicate 300 (3 : ℕ)).length from by
          rw [List.length_replicate]; exact hk),
      List.drop_replicate, min_eq_left hk]
  · have h300 : (List.replicate 300 (3 : ℕ)).length + (k - 300) = k := by
      rw [List.length_replicate]; omega
    have hdrop :=
      @List.drop_append ℕ (List.replicate 300 3) (List.replicate k 5) (k - 300)
    rw [h300] at hdrop
    rw [hdrop, List.drop_replicate, min_eq_right (by omega : (300 : ℕ) ≤ k)]
    rw [show k - (k - 300) = 300 from by omega, show 300 - k = 0 from by omega,
      List.replicate_zero, List.nil_append]

/-- The scenario window is already ascending. -/
theorem scenario_window_sorted (k : ℕ) :
    (List.replicate (300 - k) (3 : ℕ)
      ++ List.replicate (min k 300) 5).Sorted (· ≤ ·) := by
  apply List.pairwise_append.2
  refine ⟨List.pairwise_replicate.2 (Or.inr (le_refl 3)),
    List.pairwise_replicate.2 (Or.inr (le_refl 5)), ?_⟩
  intro a ha b hb
  rw [List.eq_of_mem_replicate ha, List.eq_of_mem_replicate hb]
  omega

/-- At capacity the percentile index is `⌊300 * 0.95⌋ = 285`. -/
theorem percentile_index_300 : percentile_index (19 / 20) 300 = 285 := by
  have hfloor : ⌊((300 : ℕ) : ℚ) * (19 / 20)⌋ = 285 := by norm_num
  rw [percentile_index, hfloor]
  decide

/-- Stabilized value over the whole scenario: position 285 of the
sorted window holds a three exactly while fewer than 15 fives are in
the window. -/
theorem scenario_stabilized (k : ℕ) :
    get_stabilized_count (scenario_window k)
      = some (if k < 15 then 3 else 5) := by
  have hw := scenario_window_eq k
  have hlen : (List.replicate (300 - k) (3 : ℕ)
      ++ List.replicate (min k 300) 5).length = 300 := by
    rw [List.length_append, List.length_replicate, List.length_replicate]
    omega
  have hne : scenario_window k ≠ [] := by
    rw [hw]
    intro hnil
    have hl0 := congrArg List.length hnil
    rw [hlen] at hl0
    exact absurd hl0 (by decide)
  rw [get_stabilized_count, get_stabilized_count_p_ne_nil _ _ hne, hw,
    (scenario_window_sorted k).insertionSort_eq, hlen, percentile_index_300]
  rw [List.getElem?_append]
  by_cases hk : k < 15
  · rw [if_pos (show (285 : ℕ) < (List.replicate (300 - k) (3 : ℕ)).length from by
        rw [List.length_replicate]; omega)]
    rw [List.getElem?_replicate, if_pos (show (285 : ℕ) < 300 - k from by omega),
      if_pos hk]
  · rw [if_neg (show ¬ (285 : ℕ) < (List.replicate (300 - k) (3 : ℕ)).length from by
        rw [List.length_replicate]; omega)]
    rw [List.getElem?_replicate, List.length_replicate]
    rw [if_pos (show 285 - (300 - k) < min k 300 from by omega), if_neg hk]

/-- C4 counterexample: with window capacity 300 and `p = 0.95`, after
300 threes and exactly `k = 15` fives the stabilized value is already
`5`: the index is `⌊300 * 0.95⌋ = 285` and the fifteen fives occupy
sorted positions 285..299 — so the claim that the stabilized value
"remains 3 for every k ≤ 15" fails at `k = 15`. -/
theorem scenario_fifteen_fives_counterexample :
    get_stabilized_count (scenario_window 15) = some 5 ∧ (5 : ℕ) ≠ 3 :=
  ⟨by simpa using scenario_stabilized 15, by decide⟩

/-- C4 (amended): with window capacity 300 and the percentile
estimator at `p = 0.95`, after 300 updates with raw count 3 the
stabilized value is 3; after appending `k` updates with raw count 5 the
stabilized value remains 3 for every `k ≤ 14` and becomes 5 as soon as
15 or more fives are in the window. -/
theorem scenario_percentile_threshold :
    get_stabilized_count (scenario_window 0) = some 3 ∧
    ∀ k, get_stabilized_count (scenario_window k)
      = some (if k < 15 then 3 else 5) :=
  ⟨by simpa using scenario_stabilized 0, scenario_stabilized⟩

/-!
## C6 — snapshot of a never-updated stream (spec-modelled registry)
-/

/-- Updates to other streams leave a stream's registry entry untouched. -/
theorem updateAll_apply_of_not_mem (est : List ℕ → ℕ) (cap : ℕ) :
    ∀ (us : List (String × ℕ)) (r : Registry) (q : String),
      q ∉ us.map Prod.fst → Registry.updateAll est cap r us q = r q := by
  intro us
  induction us with
  | nil =>
    intro r q _
    rfl
  | cons u us ih =>
    intro r q h
    have hq1 : q ≠ u.1 := by
      intro hqe
      exact h (by rw [List.map_cons, hqe]; exact List.mem_cons_self _ _)
    have hq2 : q ∉ us.map Prod.fst := by
      intro hmem
      exact h (by rw [List.map_cons]; exact List.mem_cons_of_mem _ hmem)
    have hstep : Registry.updateAll est cap r (u :: us)
        = Registry.updateAll est cap (Registry.update est cap r u.1 u.2) us := rfl
    rw [hstep, ih _ q hq2]
    simp [Registry.update, hq1]

/-- C6: a snapshot read of a stream name that has never been updated —
after any sequence of updates to other streams, starting from the empty
registry — returns the zero state `⟨0, 0, 0⟩` and creates no entry for
that stream (its registry cell stays `none`), for any estimator and
capacity. -/
theorem snapshot_unknown_stream (est : List ℕ → ℕ) (cap : ℕ)
    (us : List (String × ℕ)) (q : String) (h : q ∉ us.map Prod.fst) :
    Registry.snapshot (Registry.updateAll est cap Registry.empty us) q
      = ⟨0, 0, 0⟩ ∧
    Registry.updateAll est cap Registry.empty us q = none := by
  have hnone : Registry.updateAll est cap Registry.empty us q = none := by
    rw [updateAll_apply_of_not_mem est cap us Registry.empty q h]
    rfl
  exact ⟨by rw [Registry.snapshot, hnone], hnone⟩

/-- Witness for C6: one update to the stream `"top"`, then a snapshot
of the never-updated stream `"side"`, with the dual-view percentile
estimator and the 300-element capacity. -/
theorem snapshot_unknown_stream_witness :
    Registry.snapshot
        (Registry.updateAll (fun w => (get_stabilized_count w).getD 0)
          BUFFER_SIZE Registry.empty [(topStreamName, 3)]) sideStreamName
      = ⟨0, 0, 0⟩ ∧
    Registry.updateAll (fun w => (get_stabilized_count w).getD 0)
        BUFFER_SIZE Registry.empty [(topStreamName, 3)] sideStreamName = none :=
  snapshot_unknown_stream _ _ _ _ (by decide)

/-!
## C7 — no validation at the ingestion boundary (corrected)
-/

/-- C7 counterexample: the ingestion probe applies no validation: fed
the malformed raw count `-1` on an empty window, the window becomes
`[-1]` (not unchanged) and the per-stream state records `current = -1`
and even `stabilized = -1` — the malformed value reaches the window,
the stored statistics, and the estimator output. -/
theorem negative_count_not_rejected_counterexample :
    (top_infer_update [] (-1)).1 = [-1] ∧
    (top_infer_update [] (-1)).2 = ⟨-1, -1⟩ ∧ ([-1] : List ℤ) ≠ [] := by
  refine ⟨rfl, ?_, by simp⟩
  show (⟨-1, (get_stabilized_count (dequeAppend BUFFER_SIZE_DUAL [] (-1))).getD 0⟩ : DualStats)
      = ⟨-1, -1⟩
  have hbuf : dequeAppend BUFFER_SIZE_DUAL [] (-1) = ([-1] : List ℤ) := rfl
  rw [hbuf]
  have hstab : get_stabilized_count ([-1] : List ℤ) = some (-1) := by
    simp [get_stabilized_count, get_stabilized_count_p, percentile_index,
      List.insertionSort, List.orderedInsert]
  rw [hstab]
  rfl

/-- C7 (amended): the frame ingestion adapter performs no validation:
a malformed (negative) raw count is not rejected at the ingestion
boundary — it is appended to the window (it becomes a member of the new
window) and recorded as the stream's `current` count, so the per-stream
state does change. -/
theorem negative_count_reaches_window (buf : List ℤ) (raw : ℤ)
    (_h : raw < 0) :
    (top_infer_update buf raw).1 = dequeAppend BUFFER_SIZE_DUAL buf raw ∧
    (top_infer_update buf raw).2.current = raw ∧
    raw ∈ (top_infer_update buf raw).1 := by
  have hmem : raw ∈ dequeAppend BUFFER_SIZE_DUAL buf raw := by
    rw [dequeAppend]
    have hle : (buf ++ [raw]).length - BUFFER_SIZE_DUAL ≤ buf.length := by
      rw [List.length_append, List.length_singleton]
      have h1 : (1 : ℕ) ≤ BUFFER_SIZE_DUAL := by decide
      omega
    rw [List.drop_append_of_le_length hle]
    exact List.mem_append_right _ (List.mem_singleton.2 rfl)
  refine ⟨by rw [top_infer_update], by rw [top_infer_update], ?_⟩
  simp only [top_infer_update]
  exact hmem

/-- Witness for C7 (amended) at the malformed input `-1` on an empty
window. -/
theorem negative_count_reaches_window_witness :
    (top_infer_update [] (-1)).1 = dequeAppend BUFFER_SIZE_DUAL [] (-1) ∧
    (top_infer_update [] (-1)).2.current = -1 ∧
    (-1 : ℤ) ∈ (top_infer_update [] (-1)).1 :=
  negative_count_reaches_window [] (-1) (by decide)

/-!
## C8 — estimators are pure functions of the window
-/

/-- C8: both estimator strategies are pure functions of their input
window: in the state-passing embedding of the Python calls, the
caller's window after computing the stabilized value is exactly the
window before it (sorting builds a separate copy, which is a
permutation of the window; tallying only reads it), the results agree
with the pure estimators, and there is no other component of state to
affect. -/
theorem estimators_pure (w : List ℕ) (prev : ℕ) :
    (get_stabilized_count_mut w).2 = w ∧
    (get_stabilized_count_mut w).1 = get_stabilized_count w ∧
    (osd_update_stabilized_mut w prev).2 = w ∧
    (osd_update_stabilized_mut w prev).1 = osd_update_stabilized w prev ∧
    (sorted_call w).2 = w ∧ List.Perm (sorted_call w).1 w ∧
    (counter_call w).2 = w := by
  refine ⟨?_, ?_, ?_, ?_, rfl, List.perm_insertionSort _ w, rfl⟩
  · rw [get_stabilized_count_mut]
    split
    · rfl
    · rfl
  · rw [get_stabilized_count_mut, get_stabilized_count, get_stabilized_count_p]
    split
    · rfl
    · rfl
  · rw [osd_update_stabilized_mut]
    split
    · rfl
    · rfl
  · rw [osd_update_stabilized_mut, osd_update_stabilized]
    split
    · rfl
    · rfl
